import Mathlib

/-!
Verification development for the Taskfile `Reader` (`taskfile/reader.go`).

The reader recursively loads a root Taskfile, resolves its `includes`
declarations, and builds a directed acyclic graph of Taskfiles.  The Go
functions `Read`, `include`, `readNode` and `loadNodeContent` from
`taskfile/reader.go` are embedded below as `readerRead`, `doInclude`,
`readNode` and `loadNodeContent`.  Collaborators that live outside the
sources under verification (the `dominikbraun/graph` wrapper
`ast.TaskfileGraph`, the `Node`/cache/templater/yaml layers) are modelled
from the specification; each such definition carries a doc comment saying
so.  The concurrent fan-out of `include` over an `errgroup` is embedded as
a deterministic sequential interleaving: every branch runs to completion
and the first error in declaration order is the one surfaced, which is the
join semantics the specification promises ("wait for all children, return
first error, don't cancel the others"), and graph mutation is atomic under
the reader's single graph lock, so the sequentialisation is faithful.
-/

/-- A parsed task record.  Only the provenance field (`Location.Taskfile`
in the Go sources) is relevant to the reader, so the embedding keeps just
that field. -/
structure TaskRec where
  locationTaskfile : String
deriving DecidableEq, Repr

/-- An include declaration (`ast.Include`): namespace label, templated
target document reference, templated base directory, optional/internal/
flatten flags, aliases, advanced-import flag, excludes and local variable
bindings. -/
structure Include where
  ns : String
  taskfile : String
  dir : String
  optional : Bool
  internal : Bool
  flatten : Bool
  aliases : List String
  advancedImport : Bool
  excludes : List String
  vars : List (String × String)
deriving DecidableEq, Repr

/-- A parsed Taskfile (`ast.Taskfile`): schema version (present or not),
provenance location, variable bindings, named tasks (values may be
absent/null, hence `Option TaskRec`), and the ordered include declarations. -/
structure Taskfile where
  version : Option String
  location : String
  vars : List (String × String)
  tasks : List (String × Option TaskRec)
  includes : List Include
deriving DecidableEq, Repr

/-- Modelled from the spec: a `Node` (Location) is an abstract reference to
a configuration document, with a canonical identity string and a remote
flag.  Reading, child resolution and the parent chain are supplied by the
`World` environment below. -/
structure Node where
  location : String
  remote : Bool
deriving DecidableEq, Repr

/-- Graph-level error signals of the modelled graph library
(`dominikbraun/graph`): vertex already present, vertex missing, edge
already present, edge would create a cycle, edge missing. -/
inductive GraphErr
  | vertexNotFound
  | edgeAlreadyExists
  | edgeCreatesCycle
  | edgeNotFound
deriving DecidableEq, Repr

/-- The error taxonomy surfaced by the reader (`errors` package).
`fuelExhausted` is an artefact of the bounded embedding of the unbounded
Go recursion; with enough fuel it never occurs. -/
inductive TaskErr
  | cycle (source destination : String)
  | cacheNotFound (uri : String)
  | networkTimeout (uri : String) (checkedCache : Bool)
  | notTrusted (uri : String)
  | versionCheck (uri : String)
  | decode (uri : String) (snippet : String)
  | invalid (uri : String) (msg : String)
  | graphErr (e : GraphErr)
  | other (msg : String)
  | fuelExhausted
deriving DecidableEq, Repr

/-- The two trust prompts of `loadNodeContent`: the untrusted-source
prompt (no checksum cached yet) and the changed-source prompt (cached
checksum differs). -/
inductive PromptKind
  | untrusted
  | changed
deriving DecidableEq, Repr

/-- Outcome of a remote `node.Read` call: fetched bytes, a network
timeout (`TaskfileNetworkTimeoutError`), or some other fetch error. -/
inductive FetchOutcome
  | success (b : String)
  | timeout
  | failure (msg : String)
deriving DecidableEq, Repr

/-- Modelled from the spec: outcome of yaml decoding raw bytes
(`yaml.Unmarshal`): a decode error carrying a rendered snippet, some other
structural error, or a parsed Taskfile. -/
inductive ParseErr
  | decodeErr (snippet : String)
  | otherErr (msg : String)
deriving DecidableEq, Repr

deriving instance DecidableEq for Except

/-- A vertex of the Taskfile graph (`ast.TaskfileVertex`): keyed by the
location identity, payload the parsed Taskfile (`none` while in flight). -/
structure TaskfileVertex where
  uri : String
  taskfile : Option Taskfile
deriving DecidableEq, Repr

/-- An edge of the Taskfile graph: ordered pair of location identities,
payload the list of include declarations responsible for it, and a
weight. -/
structure GraphEdge where
  source : String
  target : String
  data : List Include
  weight : Nat
deriving DecidableEq, Repr

/-- Modelled from the spec: the `ast.TaskfileGraph`, a vertex and edge
collection keyed by location identity. -/
structure TaskfileGraph where
  vertices : List TaskfileVertex
  edges : List GraphEdge
deriving DecidableEq, Repr

/-- Association-list lookup for the cache stores. -/
def assocGet (l : List (String × String)) (k : String) : Option String :=
  match l with
  | [] => none
  | (k', v) :: rest => if k' = k then some v else assocGet rest k

/-- Association-list update for the cache stores. -/
def assocSet (l : List (String × String)) (k v : String) : List (String × String) :=
  match l with
  | [] => [(k, v)]
  | (k', v') :: rest => if k' = k then (k, v) :: rest else (k', v') :: assocSet rest k v

/-- Modelled from the spec: the content checksum of fetched bytes.  The
claims only compare checksums for equality, so any injective digest is a
faithful model. -/
def checksum (b : String) : String := "sum:" ++ b

/-- Debug notification emitted when an offline lookup is served from the
cache. -/
def dbgCached (loc : String) : String :=
  "task: [" ++ loc ++ "] Fetched cached copy\n"

/-- Debug notification emitted when a timed-out fetch falls back to the
cache. -/
def dbgTimeoutCached (loc : String) : String :=
  "task: [" ++ loc ++ "] Network timeout. Fetched cached copy\n"

/-- Debug notification emitted when a remote fetch succeeds. -/
def dbgRemote (loc : String) : String :=
  "task: [" ++ loc ++ "] Fetched remote copy\n"

/-- Debug notification emitted when a downloaded file is written to the
cache. -/
def dbgCaching (loc : String) : String :=
  "task: [" ++ loc ++ "] Caching downloaded file\n"

/-- Whether a vertex with the given identity is present. -/
def vertexExists (g : TaskfileGraph) (uri : String) : Bool :=
  g.vertices.any fun v => v.uri == uri

/-- Modelled from the spec: `AddVertex` is an idempotent insert keyed by
identity; the boolean is the "already exists" signal
(`graph.ErrVertexAlreadyExists`), on which the graph is unchanged. -/
def addVertexG (g : TaskfileGraph) (v : TaskfileVertex) : TaskfileGraph × Bool :=
  if vertexExists g v.uri then (g, true)
  else ({ g with vertices := g.vertices ++ [v] }, false)

/-- Attach a parsed Taskfile to the vertex with the given identity
(the Go code mutates the vertex in place through its pointer). -/
def setVertexTaskfile (g : TaskfileGraph) (uri : String) (tf : Taskfile) : TaskfileGraph :=
  { g with vertices := g.vertices.map fun v =>
      if v.uri == uri then { v with taskfile := some tf } else v }

/-- Modelled from the spec: `Edge` lookup between an ordered pair of
identities (`graph.ErrEdgeNotFound` is the `none` case). -/
def findEdge (g : TaskfileGraph) (a b : String) : Option GraphEdge :=
  g.edges.find? fun e => e.source == a && e.target == b

/-- Successors of a vertex in an edge list. -/
def succs (E : List GraphEdge) (a : String) : List String :=
  (E.filter fun e => e.source == a).map fun e => e.target

/-- Fuel-bounded reachability over an edge list: `reachB E n x y` decides
whether `y` is reachable from `x` along at most `n` edges. -/
def reachB (E : List GraphEdge) : Nat → String → String → Bool
  | 0, x, y => x == y
  | n + 1, x, y => x == y || (succs E x).any fun z => reachB E n z y

/-- Modelled from the spec: the graph library's `CreatesCycle` check —
inserting an edge `a → b` would close a cycle exactly when `a` is
reachable from `b` (a path back to an ancestor).  `E.length` fuel is
enough, since a duplicate-free path uses at most `E.length` edges. -/
def createsCycleB (g : TaskfileGraph) (a b : String) : Bool :=
  reachB g.edges g.edges.length b a

/-- Executable acyclicity: no edge has a path from its target back to its
source. -/
def acyclicB (g : TaskfileGraph) : Bool :=
  g.edges.all fun e => !(reachB g.edges g.edges.length e.target e.source)

/-- The graph contains no cycle. -/
def Acyclic (g : TaskfileGraph) : Prop := acyclicB g = true

instance (g : TaskfileGraph) : Decidable (Acyclic g) :=
  inferInstanceAs (Decidable (acyclicB g = true))

/-- Modelled from the spec: `AddEdge` on a cycle-preventing graph.  Both
endpoint vertices must exist, the ordered pair must not already carry an
edge, and an insertion that would close a cycle is rejected with
`ErrEdgeCreatesCycle` inside the operation itself. -/
def addEdgeG (g : TaskfileGraph) (a b : String) (data : List Include) (weight : Nat) :
    Except GraphErr TaskfileGraph :=
  if !vertexExists g a || !vertexExists g b then .error .vertexNotFound
  else if (findEdge g a b).isSome then .error .edgeAlreadyExists
  else if createsCycleB g a b then .error .edgeCreatesCycle
  else .ok { g with edges := g.edges ++ [⟨a, b, data, weight⟩] }

/-- Modelled from the spec: `UpdateEdge` replaces the payload and weight
of an existing edge between the pair, leaving its endpoints unchanged. -/
def updateEdgeG (g : TaskfileGraph) (a b : String) (data : List Include) (weight : Nat) :
    Except GraphErr TaskfileGraph :=
  if (findEdge g a b).isSome then
    .ok { g with edges := g.edges.map fun e =>
      if e.source == a && e.target == b then { e with data := data, weight := weight } else e }
  else .error .edgeNotFound

/-- The mutable state of one `Reader` run: the graph, the two cache
stores (content and checksum, keyed by location identity), the log of
trust prompts issued, and the log of locations loaded and parsed by
`readNode` (one entry per read). -/
structure ReaderState where
  graph : TaskfileGraph
  contentCache : List (String × String)
  checksumCache : List (String × String)
  prompts : List (String × PromptKind)
  reads : List String
deriving DecidableEq, Repr

/-- The per-call environment of `loadNodeContent` for one location: the
cached content (if any), the cached checksum (`""` when absent, exactly
as `readChecksum` reports it), the outcome a remote read would have, the
outcome a local read would have, and the trust-prompt decision (`true` =
accepted). -/
structure LoadEnv where
  cacheContent : Option String
  cacheChecksum : String
  fetch : FetchOutcome
  localRead : Except String String
  promptAccept : Bool
deriving DecidableEq, Repr

/-- The observable outcome of `loadNodeContent`: the returned bytes or
error, the cache write performed (content and checksum, `none` when the
cache was not written), the prompts issued, whether a remote network read
was attempted, and the debug notifications emitted. -/
structure LoadResult where
  result : Except TaskErr String
  cacheWrite : Option (String × String)
  prompts : List PromptKind
  networkUsed : Bool
  debugs : List String
deriving DecidableEq, Repr

/-- Embedding of `Reader.loadNodeContent` (reader.go:366-454).  A local
node is read directly.  A remote node in offline mode is served from the
cache or fails with `TaskfileCacheNotFoundError`.  Otherwise the network
is attempted: a timeout is fatal when a download was forced, falls back
to the cache when one exists, and is otherwise fatal with the
cache-checked annotation; any other fetch error propagates as-is.  On a
successful fetch the checksum is compared with the cached one: no cached
checksum issues the untrusted prompt, a differing one issues the changed
prompt, a matching one issues no prompt and writes nothing; a rejected
prompt yields `TaskfileNotTrustedError` with the cache untouched, an
accepted one persists the new checksum and content before the bytes are
returned. -/
def loadNodeContent (offline download : Bool) (node : Node) (env : LoadEnv) : LoadResult :=
  if node.remote = false then
    match env.localRead with
    | .error e => ⟨.error (.other e), none, [], false, []⟩
    | .ok b => ⟨.ok b, none, [], false, []⟩
  else if offline then
    match env.cacheContent with
    | none => ⟨.error (.cacheNotFound node.location), none, [], false, []⟩
    | some c => ⟨.ok c, none, [], false, [dbgCached node.location]⟩
  else
    match env.fetch with
    | .timeout =>
      if download then
        ⟨.error (.networkTimeout node.location false), none, [], true, []⟩
      else
        match env.cacheContent with
        | none => ⟨.error (.networkTimeout node.location true), none, [], true, []⟩
        | some c => ⟨.ok c, none, [], true, [dbgTimeoutCached node.location]⟩
    | .failure e => ⟨.error (.other e), none, [], true, []⟩
    | .success b =>
      let cs := checksum b
      let pk : Option PromptKind :=
        if env.cacheChecksum = "" then some .untrusted
        else if cs ≠ env.cacheChecksum then some .changed
        else none
      match pk with
      | none => ⟨.ok b, none, [], true, [dbgRemote node.location]⟩
      | some p =>
        if env.promptAccept then
          ⟨.ok b, some (b, cs), [p], true,
            [dbgRemote node.location, dbgCaching node.location]⟩
        else
          ⟨.error (.notTrusted node.location), none, [p], true, [dbgRemote node.location]⟩

/-- Map a parse error to the enriched reader error, as `readNode` does:
decode errors gain the offending location and rendered snippet
(`TaskfileDecodeError.WithFileInfo`), anything else becomes
`TaskfileInvalidError` naming the location. -/
def parseToErr (loc : String) (pe : ParseErr) : TaskErr :=
  match pe with
  | .decodeErr snip => .decode loc snip
  | .otherErr m => .invalid loc m

/-- Stamp one task with the document's provenance unless it already
carries one (reader.go:358-360). -/
def stampTask (loc : String) (t : TaskRec) : TaskRec :=
  if t.locationTaskfile = "" then { t with locationTaskfile := loc } else t

/-- The provenance-stamping loop of `readNode` (reader.go:352-361).  For a
present task the stamp persists through the task pointer; for an
absent/null value the loop assigns a fresh empty record to its loop-local
variable, which is never stored back into the mapping, so the mapping
entry stays null. -/
def stampTasks (loc : String) (ts : List (String × Option TaskRec)) : List (String × Option TaskRec) :=
  ts.map fun nt =>
    match nt with
    | (n, none) => (n, none)
    | (n, some t) => (n, some (stampTask loc t))

/-- Modelled from the spec: the yaml unmarshalling of the tasks block
(the `ast.Tasks` decoder, which is not among the sources under
verification) normalizes absent/null task values to an empty task record
before `readNode` ever sees the document. -/
def normalizeTasks (ts : List (String × Option TaskRec)) : List (String × Option TaskRec) :=
  ts.map fun nt => (nt.1, some (nt.2.getD ⟨""⟩))

/-- Modelled from the spec: the external collaborators of one reader run,
together with the reader's configuration.  `template` resolves the
templated fields of an include declaration against the includer's merged
environment (`templater.Replace`/`ReplaceVars` plus `cache.Err`);
`resolveEntrypoint`/`resolveDir` are the node's child-reference
resolution; `newNode` is child `Node` construction (`NewNode`), which
rejects e.g. missing files; `localRead`/`fetch` give each location's read
outcomes; `promptAccept` is the trust decision for each location's
prompt; `parse` is yaml decoding of raw bytes. -/
structure World where
  offline : Bool
  download : Bool
  template : List (String × String) → Include → Except String Include
  resolveEntrypoint : String → String → Except String String
  resolveDir : String → String → Except String String
  newNode : String → String → Except String Node
  localRead : String → Except String String
  fetch : String → FetchOutcome
  promptAccept : String → Bool
  parse : String → Except ParseErr Taskfile

/-- The `LoadEnv` that one `readNode` call passes to `loadNodeContent`:
cache entries for this location from the reader state, and the world's
read/prompt behaviour for it. -/
def readEnv (w : World) (st : ReaderState) (node : Node) : LoadEnv :=
  ⟨assocGet st.contentCache node.location,
   (assocGet st.checksumCache node.location).getD "",
   w.fetch node.location,
   w.localRead node.location,
   w.promptAccept node.location⟩

/-- Embedding of `Reader.readNode` (reader.go:324-364): load the node's
content, decode it (enriching decode errors with location and snippet),
reject a document without a schema version with
`TaskfileVersionCheckError`, and on success stamp the document's location
and run the task-stamping loop.  The reader state records the read, the
prompts issued and the cache writes performed. -/
def readNode (w : World) (st : ReaderState) (node : Node) :
    ReaderState × Except TaskErr Taskfile :=
  let lr := loadNodeContent w.offline w.download node (readEnv w st node)
  let st1 : ReaderState :=
    { st with
      reads := st.reads ++ [node.location]
      prompts := st.prompts ++ lr.prompts.map fun p => (node.location, p)
      contentCache :=
        match lr.cacheWrite with
        | some cw => assocSet st.contentCache node.location cw.1
        | none => st.contentCache
      checksumCache :=
        match lr.cacheWrite with
        | some cw => assocSet st.checksumCache node.location cw.2
        | none => st.checksumCache }
  let res : Except TaskErr Taskfile :=
    match lr.result with
    | .error e => .error e
    | .ok b =>
      match w.parse b with
      | .error pe => .error (parseToErr node.location pe)
      | .ok tf =>
        if tf.version.isNone then .error (.versionCheck node.location)
        else .ok { tf with
          location := node.location
          tasks := stampTasks node.location tf.tasks }
  (st1, res)

/-- The edge insertion of `Reader.include` (reader.go:289-316), performed
atomically under the graph lock: look the edge up, create it with the
one-element payload and weight 1 when absent, otherwise append to its
payload and set the weight to the new payload length; an insertion the
graph rejects as cycle-closing surfaces as `TaskfileCycleError` carrying
the includer and included locations. -/
def addOrUpdateEdge (st : ReaderState) (a b : String) (inc : Include) :
    ReaderState × Except TaskErr Unit :=
  match findEdge st.graph a b with
  | none =>
    match addEdgeG st.graph a b [inc] 1 with
    | .ok g => ({ st with graph := g }, .ok ())
    | .error .edgeCreatesCycle => (st, .error (.cycle a b))
    | .error ge => (st, .error (.graphErr ge))
  | some e =>
    match updateEdgeG st.graph a b (e.data ++ [inc]) (e.data ++ [inc]).length with
    | .ok g => ({ st with graph := g }, .ok ())
    | .error .edgeCreatesCycle => (st, .error (.cycle a b))
    | .error ge => (st, .error (.graphErr ge))

/-- One branch of the include fan-out (the goroutine body of
reader.go:245-317): resolve the templated fields, the entrypoint and the
directory (failures propagate), construct the child node — a failure here
is swallowed when the include is optional, propagated otherwise — then
recurse into the child and, on its success, insert or merge the edge. -/
def processOne (w : World) (recur : ReaderState → Node → ReaderState × Except TaskErr Unit)
    (st : ReaderState) (node : Node) (tfVars : List (String × String)) (inc0 : Include) :
    ReaderState × Except TaskErr Unit :=
  match w.template tfVars inc0 with
  | .error e => (st, .error (.other e))
  | .ok inc1 =>
    match w.resolveEntrypoint node.location inc1.taskfile with
    | .error e => (st, .error (.other e))
    | .ok entry =>
      match w.resolveDir node.location inc1.dir with
      | .error e => (st, .error (.other e))
      | .ok dir =>
        match w.newNode entry dir with
        | .error e => if inc1.optional then (st, .ok ()) else (st, .error (.other e))
        | .ok child =>
          match recur st child with
          | (st1, .error e) => (st1, .error e)
          | (st1, .ok _) =>
            addOrUpdateEdge st1 node.location child.location { inc1 with dir := dir }

/-- The errgroup join over the include declarations (reader.go:238-321),
sequentialised: every branch runs to completion and the first error in
declaration order is the one `Wait` surfaces. -/
def processList (w : World) (recur : ReaderState → Node → ReaderState × Except TaskErr Unit)
    (node : Node) (tfVars : List (String × String)) :
    ReaderState → List Include → ReaderState × Except TaskErr Unit
  | st, [] => (st, .ok ())
  | st, inc :: rest =>
    match processOne w recur st node tfVars inc with
    | (st1, r1) =>
      match processList w recur node tfVars st1 rest with
      | (st2, r2) =>
        (st2, match r1 with | .error e => .error e | .ok _ => r2)

/-- Embedding of `Reader.include` (reader.go:214-322): insert a vertex
for the node's location, returning success immediately when one already
exists; otherwise read and parse the Taskfile, attach it to the vertex,
and process every include declaration, waiting for all of them.  The
recursion is bounded by fuel; each recursive level consumes one unit. -/
def doInclude (w : World) : Nat → ReaderState → Node → ReaderState × Except TaskErr Unit
  | 0, st, _ => (st, .error .fuelExhausted)
  | fuel + 1, st, node =>
    match addVertexG st.graph ⟨node.location, none⟩ with
    | (_, true) => (st, .ok ())
    | (g1, false) =>
      match readNode w { st with graph := g1 } node with
      | (st2, .error e) => (st2, .error e)
      | (st2, .ok tf) =>
        processList w (fun s n => doInclude w fuel s n) node tf.vars
          { st2 with graph := setVertexTaskfile st2.graph node.location tf } tf.includes

/-- Embedding of `Reader.Read` (reader.go:194-199): run `include` on the
root node; on error return a nil graph together with the error, otherwise
return the built graph.  The pair mirrors Go's `(graph, err)` return. -/
def readerRead (w : World) (fuel : Nat) (st : ReaderState) (node : Node) :
    ReaderState × (Option TaskfileGraph × Option TaskErr) :=
  match doInclude w fuel st node with
  | (st', .error e) => (st', (none, some e))
  | (st', .ok _) => (st', (some st'.graph, none))

/-- The empty initial reader state. -/
def st0 : ReaderState := ⟨⟨[], []⟩, [], [], [], []⟩

/-! ### Reachability theory for the cycle check -/

/-- There is an edge from `a` to `b` in the edge list. -/
def EdgeRel (E : List GraphEdge) (a b : String) : Prop :=
  ∃ e, e ∈ E ∧ e.source = a ∧ e.target = b

/-- There is a path of exactly `n` edges from `x` to `y`. -/
def ReachN (E : List GraphEdge) : Nat → String → String → Prop
  | 0, x, y => x = y
  | n + 1, x, y => ∃ z, EdgeRel E x z ∧ ReachN E n z y

/-- `y` is reachable from `x` (possibly by the empty path). -/
def Reach (E : List GraphEdge) (x y : String) : Prop :=
  ∃ n, ReachN E n x y

/-- The successor list realises the edge relation. -/
theorem mem_succs {E : List GraphEdge} {x z : String} :
    z ∈ succs E x ↔ EdgeRel E x z := by
  simp only [succs, List.mem_map, List.mem_filter, beq_iff_eq, EdgeRel]
  constructor
  · rintro ⟨e, ⟨he, hs⟩, ht⟩
    exact ⟨e, he, hs, ht⟩
  · rintro ⟨e, he, hs, ht⟩
    exact ⟨e, ⟨he, hs⟩, ht⟩

theorem reach_refl (E : List GraphEdge) (x : String) : Reach E x x :=
  ⟨0, rfl⟩

theorem reach_head {E : List GraphEdge} {x z y : String}
    (h : EdgeRel E x z) (hr : Reach E z y) : Reach E x y := by
  obtain ⟨n, hn⟩ := hr
  exact ⟨n + 1, z, h, hn⟩

theorem reach_trans {E : List GraphEdge} {x y z : String}
    (h1 : Reach E x y) (h2 : Reach E y z) : Reach E x z := by
  obtain ⟨n, hn⟩ := h1
  induction n generalizing x with
  | zero => exact hn ▸ h2
  | succ n ih =>
    obtain ⟨u, he, hu⟩ := hn
    exact reach_head he (ih hu)

theorem reach_single {E : List GraphEdge} {x y : String}
    (h : EdgeRel E x y) : Reach E x y :=
  reach_head h (reach_refl E y)

/-- The bounded search never misses the trivial path. -/
theorem reachB_refl (E : List GraphEdge) (n : Nat) (x : String) :
    reachB E n x x = true := by
  cases n <;> simp [reachB]

/-- Soundness of the bounded search: a positive answer yields a path of
bounded length. -/
theorem reachB_sound (E : List GraphEdge) :
    ∀ n x y, reachB E n x y = true → ∃ m, m ≤ n ∧ ReachN E m x y := by
  intro n
  induction n with
  | zero =>
    intro x y h
    simp only [reachB, beq_iff_eq] at h
    exact ⟨0, Nat.le_refl 0, h⟩
  | succ n ih =>
    intro x y h
    simp only [reachB, Bool.or_eq_true, beq_iff_eq, List.any_eq_true] at h
    rcases h with h | ⟨z, hz, hr⟩
    · exact ⟨0, Nat.zero_le _, h⟩
    · obtain ⟨m, hm, hp⟩ := ih z y hr
      exact ⟨m + 1, Nat.succ_le_succ hm, z, mem_succs.mp hz, hp⟩

/-- Completeness of the bounded search for paths within the fuel bound. -/
theorem reachB_complete (E : List GraphEdge) :
    ∀ m n x y, m ≤ n → ReachN E m x y → reachB E n x y = true := by
  intro m
  induction m with
  | zero =>
    intro n x y _ hp
    exact hp ▸ reachB_refl E n x
  | succ m ih =>
    intro n x y hle hp
    obtain ⟨z, he, hz⟩ := hp
    cases n with
    | zero => exact absurd hle (Nat.not_succ_le_zero m)
    | succ n =>
      simp only [reachB, Bool.or_eq_true, List.any_eq_true]
      exact Or.inr ⟨z, mem_succs.mpr he, ih n z y (Nat.le_of_succ_le_succ hle) hz⟩

/-- A path as an explicit list of intermediate vertices. -/
def IsPath (E : List GraphEdge) : String → List String → String → Prop
  | x, [], y => x = y
  | x, z :: l, y => EdgeRel E x z ∧ IsPath E z l y

theorem reachN_iff_path {E : List GraphEdge} :
    ∀ n x y, ReachN E n x y ↔ ∃ l, l.length = n ∧ IsPath E x l y := by
  intro n
  induction n with
  | zero =>
    intro x y
    constructor
    · intro h
      exact ⟨[], rfl, h⟩
    · rintro ⟨l, hl, hp⟩
      rw [List.length_eq_zero] at hl
      subst hl
      exact hp
  | succ n ih =>
    intro x y
    constructor
    · rintro ⟨z, he, hz⟩
      obtain ⟨l, hl, hp⟩ := (ih z y).mp hz
      exact ⟨z :: l, by simp [hl], he, hp⟩
    · rintro ⟨l, hl, hp⟩
      cases l with
      | nil => simp at hl
      | cons z l =>
        obtain ⟨he, hp'⟩ := hp
        exact ⟨z, he, (ih z y).mpr ⟨l, by simpa using hl, hp'⟩⟩

/-- Cutting a path at an intermediate occurrence of a vertex. -/
theorem isPath_cut {E : List GraphEdge} :
    ∀ (l₁ : List String) (z : String) (l₂ : List String) (x y : String),
      IsPath E x (l₁ ++ z :: l₂) y → IsPath E z l₂ y := by
  intro l₁
  induction l₁ with
  | nil =>
    intro z l₂ x y h
    exact h.2
  | cons a l₁ ih =>
    intro z l₂ x y h
    exact ih z l₂ a y h.2

/-- Every intermediate vertex of a path is the target of some edge. -/
theorem isPath_targets {E : List GraphEdge} :
    ∀ (l : List String) (x y : String), IsPath E x l y →
      ∀ z ∈ l, z ∈ E.map fun e => e.target := by
  intro l
  induction l with
  | nil => intro x y _ z hz; simp at hz
  | cons a l ih =>
    intro x y h z hz
    rcases List.mem_cons.mp hz with hz | hz
    · obtain ⟨e, he, _, ht⟩ := h.1
      exact hz ▸ ht ▸ List.mem_map_of_mem _ he
    · exact ih a y h.2 z hz

/-- Any path can be shortened to one that repeats no vertex and uses only
vertices of the original. -/
theorem isPath_dedup {E : List GraphEdge} :
    ∀ (n : Nat) (l : List String) (x y : String), l.length ≤ n → IsPath E x l y →
      ∃ l', IsPath E x l' y ∧ (x :: l').Nodup ∧ l' ⊆ l := by
  intro n
  induction n with
  | zero =>
    intro l x y hlen hp
    rw [Nat.le_zero, List.length_eq_zero] at hlen
    subst hlen
    exact ⟨[], hp, List.nodup_singleton x, List.Subset.refl []⟩
  | succ n ih =>
    intro l x y hlen hp
    by_cases hx : x ∈ l
    · obtain ⟨l₁, l₂, rfl⟩ := List.append_of_mem hx
      have hcut : IsPath E x l₂ y := isPath_cut l₁ x l₂ x y hp
      have hlen₂ : l₂.length ≤ n := by
        have : l₂.length < (l₁ ++ x :: l₂).length := by
          simp [List.length_append]
          omega
        omega
      obtain ⟨l', hp', hnd, hsub⟩ := ih l₂ x y hlen₂ hcut
      refine ⟨l', hp', hnd, fun a ha => ?_⟩
      have : a ∈ l₂ := hsub ha
      simp [List.mem_append]
      right; right; exact this
    · cases l with
      | nil => exact ⟨[], hp, List.nodup_singleton x, List.Subset.refl []⟩
      | cons z t =>
        obtain ⟨he, hp'⟩ := hp
        have hlen' : t.length ≤ n := by simpa using Nat.le_of_succ_le_succ hlen
        obtain ⟨l'', hp'', hnd, hsub⟩ := ih t z y hlen' hp'
        refine ⟨z :: l'', ⟨he, hp''⟩, ?_, ?_⟩
        · rw [List.nodup_cons]
          refine ⟨?_, hnd⟩
          intro hcon
          rcases List.mem_cons.mp hcon with h1 | h1
          · exact hx (h1 ▸ List.mem_cons_self z t)
          · exact hx (List.mem_cons_of_mem z (hsub h1))
        · intro a ha
          rcases List.mem_cons.mp ha with h1 | h1
          · exact h1 ▸ List.mem_cons_self z t
          · exact List.mem_cons_of_mem z (hsub h1)

/-- Reachability always has a witness within the `E.length` fuel bound. -/
theorem reach_bound {E : List GraphEdge} {x y : String}
    (h : Reach E x y) : ∃ m, m ≤ E.length ∧ ReachN E m x y := by
  obtain ⟨n, hn⟩ := h
  obtain ⟨l, hl, hp⟩ := (reachN_iff_path n x y).mp hn
  obtain ⟨l', hp', hnd, hsub⟩ := isPath_dedup l.length l x y (Nat.le_refl _) hp
  have hnd' : l'.Nodup := (List.nodup_cons.mp hnd).2
  have hsub' : l' ⊆ E.map fun e => e.target := fun z hz =>
    isPath_targets l' x y hp' z hz
  have hlen : l'.length ≤ E.length := by
    have := (List.subperm_of_subset hnd' hsub').length_le
    simpa using this
  exact ⟨l'.length, hlen, (reachN_iff_path l'.length x y).mpr ⟨l', rfl, hp'⟩⟩

/-- The executable cycle check decides reachability. -/
theorem reachB_iff_reach {E : List GraphEdge} {x y : String} :
    reachB E E.length x y = true ↔ Reach E x y := by
  constructor
  · intro h
    obtain ⟨m, _, hm⟩ := reachB_sound E E.length x y h
    exact ⟨m, hm⟩
  · intro h
    obtain ⟨m, hle, hm⟩ := reach_bound h
    exact reachB_complete E m E.length x y hle hm

/-- Propositional acyclicity: no edge closes a path from its target back
to its source. -/
def AcyclicP (E : List GraphEdge) : Prop :=
  ∀ a b, EdgeRel E a b → ¬ Reach E b a

/-- The executable acyclicity check coincides with propositional
acyclicity. -/
theorem acyclic_iff {g : TaskfileGraph} : Acyclic g ↔ AcyclicP g.edges := by
  unfold Acyclic acyclicB AcyclicP
  rw [List.all_eq_true]
  constructor
  · rintro h a b ⟨e, he, hs, ht⟩ hr
    have h1 := h e he
    rw [Bool.not_eq_true'] at h1
    rw [← hs, ← ht] at hr
    rw [reachB_iff_reach.mpr hr] at h1
    exact Bool.true_eq_false.mp h1
  · intro h e he
    rw [Bool.not_eq_true']
    cases hc : reachB g.edges g.edges.length e.target e.source with
    | false => rfl
    | true =>
      exact absurd (reachB_iff_reach.mp hc)
        (h e.source e.target ⟨e, he, rfl, rfl⟩)

/-- The edge relation of a graph extended with one edge. -/
theorem edgeRel_append {E : List GraphEdge} {e₀ : GraphEdge} {x z : String} :
    EdgeRel (E ++ [e₀]) x z ↔ EdgeRel E x z ∨ (x = e₀.source ∧ z = e₀.target) := by
  unfold EdgeRel
  constructor
  · rintro ⟨e, he, hs, ht⟩
    rcases List.mem_append.mp he with h | h
    · exact Or.inl ⟨e, h, hs, ht⟩
    · rw [List.mem_singleton] at h
      subst h
      exact Or.inr ⟨hs.symm, ht.symm⟩
  · rintro (⟨e, he, hs, ht⟩ | ⟨hx, hz⟩)
    · exact ⟨e, List.mem_append_left _ he, hs, ht⟩
    · exact ⟨e₀, List.mem_append_right _ (List.mem_singleton_self _), hx.symm, hz.symm⟩

/-- A path in the extended graph either stays in the old graph or passes
through the new edge. -/
theorem reachN_append {E : List GraphEdge} {a b : String} {d : List Include} {wt : Nat}
    (hba : ¬ Reach E b a) :
    ∀ n x y, ReachN (E ++ [⟨a, b, d, wt⟩]) n x y →
      Reach E x y ∨ (Reach E x a ∧ Reach E b y) := by
  intro n
  induction n with
  | zero =>
    intro x y h
    exact Or.inl (h ▸ reach_refl E x)
  | succ n ih =>
    intro x y h
    obtain ⟨z, he, hz⟩ := h
    rcases edgeRel_append.mp he with he' | ⟨hx, hz'⟩
    · rcases ih z y hz with h1 | ⟨h1, h2⟩
      · exact Or.inl (reach_head he' h1)
      · exact Or.inr ⟨reach_head he' h1, h2⟩
    · subst hx
      subst hz'
      rcases ih _ y hz with h1 | ⟨h1, _⟩
      · exact Or.inr ⟨reach_refl E _, h1⟩
      · exact absurd h1 hba

/-- Inserting an edge whose reverse direction is unreachable preserves
acyclicity. -/
theorem acyclicP_append {E : List GraphEdge} {a b : String} {d : List Include} {wt : Nat}
    (hE : AcyclicP E) (hba : ¬ Reach E b a) :
    AcyclicP (E ++ [⟨a, b, d, wt⟩]) := by
  rintro c c' he hr
  obtain ⟨n, hn⟩ := hr
  have h1 := reachN_append hba n c' c hn
  rcases edgeRel_append.mp he with he' | ⟨hc, hc'⟩
  · rcases h1 with h2 | ⟨h2, h3⟩
    · exact hE c c' he' h2
    · exact hba (reach_trans h3 (reach_trans (reach_single he') h2))
  · subst hc
    subst hc'
    rcases h1 with h2 | ⟨h2, _⟩
    · exact hba h2
    · exact hba h2

/-- The edge relation is unchanged by a map that keeps every edge's
endpoints. -/
theorem edgeRel_map {E : List GraphEdge} {f : GraphEdge → GraphEdge}
    (hf : ∀ e, (f e).source = e.source ∧ (f e).target = e.target) {x z : String} :
    EdgeRel (E.map f) x z ↔ EdgeRel E x z := by
  unfold EdgeRel
  constructor
  · rintro ⟨e, he, hs, ht⟩
    obtain ⟨e', he', rfl⟩ := List.mem_map.mp he
    exact ⟨e', he', (hf e').1 ▸ hs, (hf e').2 ▸ ht⟩
  · rintro ⟨e, he, hs, ht⟩
    exact ⟨f e, List.mem_map_of_mem f he, (hf e).1.trans hs, (hf e).2.trans ht⟩

/-- Reachability is unchanged by an endpoint-preserving map. -/
theorem reachN_map {E : List GraphEdge} {f : GraphEdge → GraphEdge}
    (hf : ∀ e, (f e).source = e.source ∧ (f e).target = e.target) :
    ∀ n x y, ReachN (E.map f) n x y ↔ ReachN E n x y := by
  intro n
  induction n with
  | zero => intro x y; exact Iff.rfl
  | succ n ih =>
    intro x y
    constructor
    · rintro ⟨z, he, hz⟩
      exact ⟨z, (edgeRel_map hf).mp he, (ih z y).mp hz⟩
    · rintro ⟨z, he, hz⟩
      exact ⟨z, (edgeRel_map hf).mpr he, (ih z y).mpr hz⟩

/-- Acyclicity is unchanged by an endpoint-preserving map. -/
theorem acyclicP_map {E : List GraphEdge} {f : GraphEdge → GraphEdge}
    (hf : ∀ e, (f e).source = e.source ∧ (f e).target = e.target)
    (hE : AcyclicP E) : AcyclicP (E.map f) := by
  rintro a b he ⟨n, hn⟩
  exact hE a b ((edgeRel_map hf).mp he) ⟨n, (reachN_map hf n b a).mp hn⟩

/-- A successful `AddEdge` preserves acyclicity: the operation itself
rejected any cycle-closing insertion. -/
theorem acyclic_addEdgeG {g g' : TaskfileGraph} {a b : String} {d : List Include} {wt : Nat}
    (hg : Acyclic g) (h : addEdgeG g a b d wt = .ok g') : Acyclic g' := by
  unfold addEdgeG at h
  split at h
  · exact absurd h (by simp)
  · split at h
    · exact absurd h (by simp)
    · split at h
      · exact absurd h (by simp)
      · next hcyc =>
        have hg' : g' = { g with edges := g.edges ++ [⟨a, b, d, wt⟩] } := by
          injection h with h'
          exact h'.symm
        subst hg'
        have hba : ¬ Reach g.edges b a := by
          intro hr
          exact hcyc (reachB_iff_reach.mpr hr)
        exact acyclic_iff.mpr (acyclicP_append (acyclic_iff.mp hg) hba)

/-- A successful `UpdateEdge` preserves acyclicity: it only replaces the
payload and weight of an existing edge. -/
theorem acyclic_updateEdgeG {g g' : TaskfileGraph} {a b : String} {d : List Include} {wt : Nat}
    (hg : Acyclic g) (h : updateEdgeG g a b d wt = .ok g') : Acyclic g' := by
  unfold updateEdgeG at h
  split at h
  · have hg' : g' = { g with edges := g.edges.map fun e =>
        if e.source == a && e.target == b then { e with data := d, weight := wt } else e } := by
      injection h with h'
      exact h'.symm
    subst hg'
    refine acyclic_iff.mpr (acyclicP_map ?_ (acyclic_iff.mp hg))
    intro e
    by_cases hc : (e.source == a && e.target == b) = true <;> simp [hc]
  · exact absurd h (by simp)

/-- The reader's edge insertion/merge preserves acyclicity in every
outcome. -/
theorem acyclic_addOrUpdateEdge (st : ReaderState) (a b : String) (inc : Include)
    (hg : Acyclic st.graph) : Acyclic ((addOrUpdateEdge st a b inc).1.graph) := by
  unfold addOrUpdateEdge
  split
  · split
    · next g hok => exact acyclic_addEdgeG hg hok
    · next ge hok _ => exact hg
    · exact hg
  · split
    · next g hok => exact acyclic_updateEdgeG hg hok
    · next ge hok _ => exact hg
    · exact hg

/-! ### Edge aggregation invariant -/

/-- The ordered endpoint pairs of all edges. -/
def edgeKeys (g : TaskfileGraph) : List (String × String) :=
  g.edges.map fun e => (e.source, e.target)

/-- The edge-aggregation invariant: at most one edge per ordered vertex
pair, and every edge's weight equals the length of its include payload. -/
def EdgesInv (g : TaskfileGraph) : Prop :=
  (edgeKeys g).Nodup ∧ ∀ e ∈ g.edges, e.weight = e.data.length

instance (g : TaskfileGraph) : Decidable (EdgesInv g) :=
  inferInstanceAs (Decidable ((edgeKeys g).Nodup ∧ ∀ e ∈ g.edges, e.weight = e.data.length))

/-- `findEdge` returning `none` means no edge joins the ordered pair. -/
theorem findEdge_none_iff {g : TaskfileGraph} {a b : String} :
    findEdge g a b = none ↔ ∀ e ∈ g.edges, ¬(e.source = a ∧ e.target = b) := by
  simp [findEdge, List.find?_eq_none]

/-- The reader's edge insertion/merge preserves the edge-aggregation
invariant in every outcome. -/
theorem edgesInv_addOrUpdateEdge (st : ReaderState) (a b : String) (inc : Include)
    (hg : EdgesInv st.graph) : EdgesInv ((addOrUpdateEdge st a b inc).1.graph) := by
  unfold addOrUpdateEdge
  split
  · next hfe =>
    split
    · next g hok =>
      unfold addEdgeG at hok
      split at hok
      · exact absurd hok (by simp)
      · split at hok
        · exact absurd hok (by simp)
        · split at hok
          · exact absurd hok (by simp)
          · injection hok with h'
            subst h'
            constructor
            · show (edgeKeys { st.graph with edges := _ }).Nodup
              unfold edgeKeys
              rw [List.map_append, List.nodup_append]
              refine ⟨hg.1, List.nodup_singleton _, ?_⟩
              intro x hx hy
              rw [List.map_singleton, List.mem_singleton] at hy
              subst hy
              obtain ⟨e, he, hkey⟩ := List.mem_map.mp hx
              have h2 := findEdge_none_iff.mp hfe e he
              exact h2 ⟨(Prod.ext_iff.mp hkey).1, (Prod.ext_iff.mp hkey).2⟩
            · intro e he
              rcases List.mem_append.mp he with h1 | h1
              · exact hg.2 e h1
              · rw [List.mem_singleton] at h1
                subst h1
                rfl
    · exact hg
    · exact hg
  · next e hfe =>
    split
    · next g hok =>
      unfold updateEdgeG at hok
      split at hok
      · injection hok with h'
        subst h'
        have hkeys : edgeKeys { st.graph with edges := st.graph.edges.map fun e' =>
            if e'.source == a && e'.target == b then
              { e' with data := e.data ++ [inc], weight := (e.data ++ [inc]).length }
            else e' } = edgeKeys st.graph := by
          unfold edgeKeys
          rw [List.map_map]
          refine List.map_congr_left ?_
          intro e' _
          simp only [Function.comp_apply]
          cases hc : (e'.source == a && e'.target == b) <;> simp
        constructor
        · rw [hkeys]
          exact hg.1
        · intro e' he'
          obtain ⟨e₀, he₀, rfl⟩ := List.mem_map.mp he'
          cases hc : (e₀.source == a && e₀.target == b) with
          | true => simp
          | false =>
            simp only [Bool.false_eq_true, if_false]
            exact hg.2 e₀ he₀
      · exact absurd hok (by simp)
    · exact hg
    · exact hg

/-! ### Generic preservation through the include recursion -/

/-- `readNode` never touches the graph. -/
theorem readNode_graph (w : World) (st : ReaderState) (node : Node) :
    ((readNode w st node).1).graph = st.graph := rfl

/-- A graph property preserved by vertex insertion, vertex payload
attachment and edge insertion/merge is preserved by one include branch. -/
theorem processOne_preserves (P : TaskfileGraph → Prop) (w : World)
    (recur : ReaderState → Node → ReaderState × Except TaskErr Unit)
    (hrec : ∀ st n, P st.graph → P ((recur st n).1.graph))
    (hedge : ∀ st a b inc, P st.graph → P ((addOrUpdateEdge st a b inc).1.graph))
    (st : ReaderState) (node : Node) (tfVars : List (String × String)) (inc0 : Include)
    (h : P st.graph) : P ((processOne w recur st node tfVars inc0).1.graph) := by
  unfold processOne
  split
  · exact h
  · split
    · exact h
    · split
      · exact h
      · split
        · split <;> exact h
        · next child hchild =>
          split
          · next st1 e heq =>
            have h1 := hrec st child h
            rw [heq] at h1
            exact h1
          · next st1 u heq =>
            have h1 := hrec st child h
            rw [heq] at h1
            exact hedge st1 node.location child.location _ h1

/-- A graph property preserved by the branch step is preserved by the
whole errgroup fan-out. -/
theorem processList_preserves (P : TaskfileGraph → Prop) (w : World)
    (recur : ReaderState → Node → ReaderState × Except TaskErr Unit)
    (hrec : ∀ st n, P st.graph → P ((recur st n).1.graph))
    (hedge : ∀ st a b inc, P st.graph → P ((addOrUpdateEdge st a b inc).1.graph))
    (node : Node) (tfVars : List (String × String)) :
    ∀ (l : List Include) (st : ReaderState), P st.graph →
      P ((processList w recur node tfVars st l).1.graph) := by
  intro l
  induction l with
  | nil => intro st h; exact h
  | cons inc rest ih =>
    intro st h
    have h1 := processOne_preserves P w recur hrec hedge st node tfVars inc h
    cases hpo : processOne w recur st node tfVars inc with
    | mk st1 r1 =>
      rw [hpo] at h1
      have h2 := ih st1 h1
      cases hpl : processList w recur node tfVars st1 rest with
      | mk st2 r2 =>
        rw [hpl] at h2
        simp only [processList, hpo, hpl]
        exact h2

/-- A graph property preserved by vertex insertion, payload attachment
and edge insertion/merge holds after any run of `include`, whatever the
world, the fuel and the starting node. -/
theorem doInclude_preserves (P : TaskfileGraph → Prop) (w : World)
    (hvert : ∀ g v, P g → P { g with vertices := g.vertices ++ [v] })
    (hset : ∀ g uri tf, P g → P (setVertexTaskfile g uri tf))
    (hedge : ∀ st a b inc, P st.graph → P ((addOrUpdateEdge st a b inc).1.graph)) :
    ∀ (fuel : Nat) (st : ReaderState) (node : Node), P st.graph →
      P ((doInclude w fuel st node).1.graph) := by
  intro fuel
  induction fuel with
  | zero => intro st node h; exact h
  | succ fuel ih =>
    intro st node h
    simp only [doInclude]
    split
    · exact h
    · next g1 hv =>
      have hg1 : P g1 := by
        unfold addVertexG at hv
        split at hv
        · exact absurd (congrArg Prod.snd hv) (by simp)
        · have h1 : ({ st.graph with
              vertices := st.graph.vertices ++ [⟨node.location, none⟩] } : TaskfileGraph) = g1 :=
            congrArg Prod.fst hv
          exact h1 ▸ hvert st.graph _ h
      split
      · next st2 e heq =>
        have h2 : st2.graph = g1 := by
          have h3 := readNode_graph w { st with graph := g1 } node
          rw [heq] at h3
          exact h3
        exact h2 ▸ hg1
      · next st2 tf heq =>
        have h2 : st2.graph = g1 := by
          have h3 := readNode_graph w { st with graph := g1 } node
          rw [heq] at h3
          exact h3
        refine processList_preserves P w _ (fun s n hs => ih s n hs) hedge node tf.vars
          tf.includes _ ?_
        show P (setVertexTaskfile st2.graph node.location tf)
        exact hset st2.graph node.location tf (h2 ▸ hg1)

/-- Acyclicity is preserved by any run of `include`. -/
theorem doInclude_acyclic (w : World) (fuel : Nat) (st : ReaderState) (node : Node)
    (hg : Acyclic st.graph) : Acyclic ((doInclude w fuel st node).1.graph) :=
  doInclude_preserves Acyclic w (fun _ _ h => h) (fun _ _ _ h => h)
    acyclic_addOrUpdateEdge fuel st node hg

/-- The edge-aggregation invariant is preserved by any run of `include`. -/
theorem doInclude_edgesInv (w : World) (fuel : Nat) (st : ReaderState) (node : Node)
    (hg : EdgesInv st.graph) : EdgesInv ((doInclude w fuel st node).1.graph) :=
  doInclude_preserves EdgesInv w (fun _ _ h => h) (fun _ _ _ h => h)
    edgesInv_addOrUpdateEdge fuel st node hg

/-! ### Claims about the content loading and trust gate -/

/-- C3: trust-gate behaviour on a successful remote fetch.  With no
cached checksum exactly one untrusted-source prompt is issued; with a
cached checksum differing from the fetched content's exactly one
changed-source prompt is issued; with matching checksums no prompt is
issued, the cache is not written and the bytes are returned.  A rejected
prompt yields `TaskfileNotTrustedError` with no cache write (the previous
entry is untouched); an accepted prompt persists the new content and
checksum together with the returned bytes. -/
theorem claim_C3 (offline download : Bool) (node : Node) (env : LoadEnv) (b : String)
    (hrem : node.remote = true) (hoff : offline = false) (hfetch : env.fetch = .success b) :
    (env.cacheChecksum = "" →
      (loadNodeContent offline download node env).prompts = [.untrusted]) ∧
    (env.cacheChecksum ≠ "" → checksum b ≠ env.cacheChecksum →
      (loadNodeContent offline download node env).prompts = [.changed]) ∧
    (checksum b = env.cacheChecksum →
      (loadNodeContent offline download node env).prompts = [] ∧
      (loadNodeContent offline download node env).cacheWrite = none ∧
      (loadNodeContent offline download node env).result = .ok b) ∧
    ((env.cacheChecksum = "" ∨ checksum b ≠ env.cacheChecksum) → env.promptAccept = false →
      (loadNodeContent offline download node env).result = .error (.notTrusted node.location) ∧
      (loadNodeContent offline download node env).cacheWrite = none) ∧
    ((env.cacheChecksum = "" ∨ checksum b ≠ env.cacheChecksum) → env.promptAccept = true →
      (loadNodeContent offline download node env).cacheWrite = some (b, checksum b) ∧
      (loadNodeContent offline download node env).result = .ok b) := by
  subst hoff
  have hcs : checksum b ≠ "" := by
    intro h
    have h1 := congrArg String.length h
    simp [checksum] at h1
    exact absurd h1.1 (by decide)
  unfold loadNodeContent
  rw [hrem, hfetch]
  refine ⟨?_, ?_, ?_, ?_, ?_⟩
  · intro h1
    simp only [h1, if_pos rfl]
    cases env.promptAccept <;> simp
  · intro h1 h2
    simp only [if_neg h1, if_neg (by simpa using h2)]
    simp only [if_pos (by simpa using h2)]
    cases env.promptAccept <;> simp
  · intro h1
    have h2 : ¬(env.cacheChecksum = "") := fun hc => hcs (h1.trans hc)
    simp [if_neg h2, h1]
  · rintro (h1 | h1) h2
    · simp [h1, h2]
    · have h3 : ¬(env.cacheChecksum = "") ∨ env.cacheChecksum = "" := (em _).symm
      rcases h3 with h3 | h3
      · simp [if_neg h3, h1, h2]
      · simp [h3, h2]
  · rintro (h1 | h1) h2
    · simp [h1, h2]
    · rcases em (env.cacheChecksum = "") with h3 | h3
      · simp [h3, h2]
      · simp [if_neg h3, h1, h2]

/-- C3 witness: a first fetch with nothing cached, accepted. -/
theorem claim_C3_witness :
    (⟨"R", true⟩ : Node).remote = true ∧ (false : Bool) = false ∧
    (⟨none, "", .success "body", .error "", true⟩ : LoadEnv).fetch = .success "body" ∧
    (loadNodeContent false false ⟨"R", true⟩ ⟨none, "", .success "body", .error "", true⟩).prompts
      = [.untrusted] ∧
    (loadNodeContent false false ⟨"R", true⟩ ⟨none, "", .success "body", .error "", true⟩).cacheWrite
      = some ("body", checksum "body") := by
  have h := claim_C3 false false ⟨"R", true⟩ ⟨none, "", .success "body", .error "", true⟩ "body"
    rfl rfl rfl
  exact ⟨rfl, rfl, rfl, h.1 rfl, (h.2.2.2.2 (Or.inl rfl) rfl).1⟩

/-- C4: timeout fallback.  A remote fetch that times out is fatal with
`TaskfileNetworkTimeoutError` when a download was forced, regardless of
the cache; otherwise a cached copy is returned without error, and a
missing cache entry is fatal with the cache-checked annotation.  Any
fetch error other than a timeout propagates as-is. -/
theorem claim_C4 (offline download : Bool) (node : Node) (env : LoadEnv)
    (hrem : node.remote = true) (hoff : offline = false) :
    (env.fetch = .timeout → download = true →
      (loadNodeContent offline download node env).result =
        .error (.networkTimeout node.location false)) ∧
    (env.fetch = .timeout → download = false → ∀ c, env.cacheContent = some c →
      (loadNodeContent offline download node env).result = .ok c ∧
      (loadNodeContent offline download node env).debugs = [dbgTimeoutCached node.location]) ∧
    (env.fetch = .timeout → download = false → env.cacheContent = none →
      (loadNodeContent offline download node env).result =
        .error (.networkTimeout node.location true)) ∧
    (∀ m, env.fetch = .failure m →
      (loadNodeContent offline download node env).result = .error (.other m)) := by
  subst hoff
  refine ⟨?_, ?_, ?_, ?_⟩
  · intro hfetch hdl
    subst hdl
    unfold loadNodeContent
    rw [hrem, hfetch]
    simp
  · intro hfetch hdl c hc
    subst hdl
    unfold loadNodeContent
    rw [hrem, hfetch, hc]
    simp
  · intro hfetch hdl hc
    subst hdl
    unfold loadNodeContent
    rw [hrem, hfetch, hc]
    simp
  · intro m hfetch
    unfold loadNodeContent
    rw [hrem, hfetch]
    simp

/-- C4 witness: a timeout with a cache entry and no forced download
returns the cached bytes. -/
theorem claim_C4_witness :
    (⟨"R", true⟩ : Node).remote = true ∧ (false : Bool) = false ∧
    (loadNodeContent false false ⟨"R", true⟩
      ⟨some "cached", "", .timeout, .error "", true⟩).result = .ok "cached" ∧
    (loadNodeContent false true ⟨"R", true⟩
      ⟨some "cached", "", .timeout, .error "", true⟩).result =
      .error (.networkTimeout "R" false) := by
  have h1 := claim_C4 false false ⟨"R", true⟩ ⟨some "cached", "", .timeout, .error "", true⟩ rfl rfl
  have h2 := claim_C4 false true ⟨"R", true⟩ ⟨some "cached", "", .timeout, .error "", true⟩ rfl rfl
  exact ⟨rfl, rfl, (h1.2.1 rfl rfl "cached" rfl).1, h2.1 rfl rfl⟩

/-- C7: offline mode.  A remote location requested offline never attempts
a network read; with no cache entry the result is
`TaskfileCacheNotFoundError` naming the location, and with a cache entry
the cached bytes are returned together with the debug notification. -/
theorem claim_C7 (download : Bool) (node : Node) (env : LoadEnv)
    (hrem : node.remote = true) :
    ((loadNodeContent true download node env).networkUsed = false) ∧
    (env.cacheContent = none →
      (loadNodeContent true download node env).result =
        .error (.cacheNotFound node.location)) ∧
    (∀ c, env.cacheContent = some c →
      (loadNodeContent true download node env).result = .ok c ∧
      (loadNodeContent true download node env).debugs = [dbgCached node.location]) := by
  refine ⟨?_, ?_, ?_⟩
  · unfold loadNodeContent
    rw [hrem]
    cases hc : env.cacheContent <;> simp [hc]
  · intro hc
    unfold loadNodeContent
    rw [hrem, hc]
    simp
  · intro c hc
    unfold loadNodeContent
    rw [hrem, hc]
    simp

/-- C7 witness: an uncached offline request fails with the cache-miss
error and no network use. -/
theorem claim_C7_witness :
    (⟨"R", true⟩ : Node).remote = true ∧
    (loadNodeContent true false ⟨"R", true⟩
      ⟨none, "", .success "x", .error "", true⟩).networkUsed = false ∧
    (loadNodeContent true false ⟨"R", true⟩
      ⟨none, "", .success "x", .error "", true⟩).result = .error (.cacheNotFound "R") := by
  have h := claim_C7 false ⟨"R", true⟩ ⟨none, "", .success "x", .error "", true⟩ rfl
  exact ⟨rfl, h.1, h.2.1 rfl⟩

/-- C10 (implicit): cache-served remote content bypasses the trust gate.
Both in offline mode and in the timeout fallback with no forced download,
the cached bytes are returned with no prompt issued and no checksum or
content written. -/
theorem claim_C10 (download : Bool) (node : Node) (env : LoadEnv) (c : String)
    (hrem : node.remote = true) (hc : env.cacheContent = some c) :
    ((loadNodeContent true download node env).result = .ok c ∧
     (loadNodeContent true download node env).prompts = [] ∧
     (loadNodeContent true download node env).cacheWrite = none) ∧
    (env.fetch = .timeout →
      (loadNodeContent false false node env).result = .ok c ∧
      (loadNodeContent false false node env).prompts = [] ∧
      (loadNodeContent false false node env).cacheWrite = none) := by
  constructor
  · unfold loadNodeContent
    rw [hrem, hc]
    simp
  · intro hfetch
    unfold loadNodeContent
    rw [hrem, hfetch, hc]
    simp

/-- C10 witness: offline and timeout-fallback cache hits, prompt-free. -/
theorem claim_C10_witness :
    (⟨"R", true⟩ : Node).remote = true ∧
    (⟨some "c0", "", .timeout, .error "", true⟩ : LoadEnv).cacheContent = some "c0" ∧
    (loadNodeContent true false ⟨"R", true⟩
      ⟨some "c0", "", .timeout, .error "", true⟩).prompts = [] ∧
    (loadNodeContent false false ⟨"R", true⟩
      ⟨some "c0", "", .timeout, .error "", true⟩).prompts = [] := by
  have h := claim_C10 false ⟨"R", true⟩ ⟨some "c0", "", .timeout, .error "", true⟩ "c0" rfl rfl
  exact ⟨rfl, rfl, h.1.2.1, (h.2 rfl).2.1⟩

/-! ### Concrete scenario worlds -/

/-- A minimal include declaration with the given namespace and target. -/
def mkInclude (ns tf : String) (opt : Bool) : Include :=
  ⟨ns, tf, "", opt, false, false, [], false, [], []⟩

/-- A version-3 Taskfile carrying the given include declarations. -/
def tfOf (incs : List Include) : Taskfile := ⟨some "3", "", [], [], incs⟩

/-- A world of local documents: templating and child resolution are the
identity, node construction and reads are as given, the network is never
consulted, and prompts are accepted. -/
def localWorld (newNode : String → String → Except String Node)
    (localRead : String → Except String String)
    (parse : String → Except ParseErr Taskfile) : World :=
  ⟨false, false, fun _ i => .ok i, fun _ r => .ok r, fun _ d => .ok d,
   newNode, localRead, fun _ => .timeout, fun _ => true, parse⟩

/-- Node construction that always succeeds with a local node. -/
def okNode : String → String → Except String Node := fun e _ => .ok ⟨e, false⟩

/-- Local reads whose content is the location itself. -/
def okRead : String → Except String String := fun l => .ok l

/-- The root node of the scenarios. -/
def nodeA : Node := ⟨"A", false⟩

/-- Two documents that include each other: A includes B, B includes A. -/
def wCycle : World :=
  localWorld okNode okRead fun b =>
    if b = "A" then .ok (tfOf [mkInclude "b" "B" false])
    else if b = "B" then .ok (tfOf [mkInclude "a" "A" false])
    else .error (.otherErr "missing")

/-- A diamond: A includes B and C, both of which include D. -/
def wDiamond : World :=
  localWorld okNode okRead fun b =>
    if b = "A" then .ok (tfOf [mkInclude "b" "B" false, mkInclude "c" "C" false])
    else if b = "B" then .ok (tfOf [mkInclude "d" "D" false])
    else if b = "C" then .ok (tfOf [mkInclude "d" "D" false])
    else if b = "D" then .ok (tfOf [])
    else .error (.otherErr "missing")

/-- A includes B twice through two distinct declarations. -/
def wTwice : World :=
  localWorld okNode okRead fun b =>
    if b = "A" then .ok (tfOf [mkInclude "b1" "B" false, mkInclude "b2" "B" false])
    else if b = "B" then .ok (tfOf [])
    else .error (.otherErr "missing")

/-- Node construction that rejects the location M (e.g. a missing file). -/
def missingM : String → String → Except String Node :=
  fun e _ => if e = "M" then .error "no such file" else .ok ⟨e, false⟩

/-- A optionally includes the unresolvable M, and includes C. -/
def wOpt : World :=
  localWorld missingM okRead fun b =>
    if b = "A" then .ok (tfOf [mkInclude "m" "M" true, mkInclude "c" "C" false])
    else if b = "C" then .ok (tfOf [])
    else .error (.otherErr "missing")

/-- The same shape with the include of M not optional. -/
def wOptReq : World :=
  localWorld missingM okRead fun b =>
    if b = "A" then .ok (tfOf [mkInclude "m" "M" false, mkInclude "c" "C" false])
    else if b = "C" then .ok (tfOf [])
    else .error (.otherErr "missing")

/-- A includes B, whose read fails. -/
def wFail : World :=
  localWorld okNode (fun l => if l = "B" then .error "boom" else .ok l) fun b =>
    if b = "A" then .ok (tfOf [mkInclude "b" "B" false])
    else .error (.otherErr "missing")

/-- A reader state that already holds vertices A and B and an edge B→A. -/
def stC1 : ReaderState :=
  ⟨⟨[⟨"A", none⟩, ⟨"B", none⟩], [⟨"B", "A", [], 0⟩]⟩, [], [], [], []⟩

/-- A reader state with vertices A and B and no edges. -/
def stAB : ReaderState :=
  ⟨⟨[⟨"A", none⟩, ⟨"B", none⟩], []⟩, [], [], [], []⟩

/-! ### Claims about the include recursion and the graph -/

/-- C1: the document graph is acyclic at all times.  Any `include` run
from an acyclic state ends acyclic and any graph `Read` hands to a caller
is acyclic; an edge insertion that would close a cycle is rejected inside
the insertion operation with `TaskfileCycleError` carrying exactly the
includer (source) and included (destination) locations, leaving the graph
unchanged; and in the concrete two-document cycle, `Read` returns exactly
that cycle error, no graph, and the internal graph stays acyclic. -/
theorem claim_C1 :
    (∀ (w : World) (fuel : Nat) (st : ReaderState) (node : Node), Acyclic st.graph →
        Acyclic ((doInclude w fuel st node).1.graph) ∧
        (∀ g, (readerRead w fuel st node).2.1 = some g → Acyclic g)) ∧
    (∀ (st : ReaderState) (a b : String) (inc : Include),
        vertexExists st.graph a = true → vertexExists st.graph b = true →
        findEdge st.graph a b = none → createsCycleB st.graph a b = true →
        addOrUpdateEdge st a b inc = (st, .error (.cycle a b))) ∧
    ((readerRead wCycle 5 st0 nodeA).2.2 = some (.cycle "A" "B") ∧
     (readerRead wCycle 5 st0 nodeA).2.1 = none ∧
     Acyclic ((readerRead wCycle 5 st0 nodeA).1.graph)) := by
  refine ⟨?_, ?_, by decide⟩
  · intro w fuel st node hg
    refine ⟨doInclude_acyclic w fuel st node hg, ?_⟩
    intro g hgr
    unfold readerRead at hgr
    have hdi := doInclude_acyclic w fuel st node hg
    cases h : doInclude w fuel st node with
    | mk st' r =>
      rw [h] at hgr hdi
      cases r with
      | error e => simp at hgr
      | ok u =>
        simp at hgr
        exact hgr ▸ hdi
  · intro st a b inc ha hb hfe hcyc
    unfold addOrUpdateEdge addEdgeG
    rw [hfe]
    simp [ha, hb, hcyc]

/-- C1 witness: the invariant on a concrete run, and the rejection of the
concrete cycle-closing edge A→B when B→A is already present. -/
theorem claim_C1_witness :
    Acyclic ((doInclude wCycle 5 st0 nodeA).1.graph) ∧
    addOrUpdateEdge stC1 "A" "B" (mkInclude "x" "B" false) =
      (stC1, .error (.cycle "A" "B")) := by
  constructor
  · exact (claim_C1.1 wCycle 5 st0 nodeA (by decide)).1
  · exact claim_C1.2.1 stC1 "A" "B" (mkInclude "x" "B" false)
      (by decide) (by decide) (by decide) (by decide)

/-- C2: vertex insertion is idempotent and short-circuits recursion.  An
`include` call for an identity whose vertex already exists returns
success immediately with the state unchanged (no read, no parse, no
second vertex); in the concrete diamond, D is read and parsed exactly
once, exactly one vertex for D exists, both edges B→D and C→D exist, and
no error is reported. -/
theorem claim_C2 :
    (∀ (w : World) (fuel : Nat) (st : ReaderState) (node : Node),
        vertexExists st.graph node.location = true →
        doInclude w (fuel + 1) st node = (st, .ok ())) ∧
    ((readerRead wDiamond 5 st0 nodeA).2.2 = none ∧
     (readerRead wDiamond 5 st0 nodeA).1.reads = ["A", "B", "D", "C"] ∧
     ((readerRead wDiamond 5 st0 nodeA).1.graph.vertices.map TaskfileVertex.uri).count "D" = 1 ∧
     ("B", "D") ∈ edgeKeys (readerRead wDiamond 5 st0 nodeA).1.graph ∧
     ("C", "D") ∈ edgeKeys (readerRead wDiamond 5 st0 nodeA).1.graph ∧
     edgeKeys (readerRead wDiamond 5 st0 nodeA).1.graph =
       [("B", "D"), ("A", "B"), ("C", "D"), ("A", "C")]) := by
  refine ⟨?_, by decide⟩
  intro w fuel st node hv
  simp only [doInclude, addVertexG]
  rw [if_pos hv]

/-- C2 witness: a repeat include of an already-present identity is an
immediate success. -/
theorem claim_C2_witness :
    vertexExists stC1.graph nodeA.location = true ∧
    doInclude wDiamond 1 stC1 nodeA = (stC1, .ok ()) :=
  ⟨by decide, claim_C2.1 wDiamond 0 stC1 nodeA (by decide)⟩

/-- C5: optional include tolerance.  An include branch whose child
location construction is rejected is a successful no-op when the include
is optional and propagates the failure otherwise; in the concrete
scenario, the run with the optional unresolvable include succeeds with
only that branch omitted, while the non-optional variant fails with the
propagated resolution error. -/
theorem claim_C5 :
    (∀ (w : World) (recur : ReaderState → Node → ReaderState × Except TaskErr Unit)
        (st : ReaderState) (node : Node) (tfVars : List (String × String))
        (inc0 inc1 : Include) (entry dir e : String),
        w.template tfVars inc0 = .ok inc1 →
        w.resolveEntrypoint node.location inc1.taskfile = .ok entry →
        w.resolveDir node.location inc1.dir = .ok dir →
        w.newNode entry dir = .error e →
        (inc1.optional = true → processOne w recur st node tfVars inc0 = (st, .ok ())) ∧
        (inc1.optional = false →
          processOne w recur st node tfVars inc0 = (st, .error (.other e)))) ∧
    ((readerRead wOpt 5 st0 nodeA).2.2 = none ∧
     (readerRead wOpt 5 st0 nodeA).1.graph.vertices.map TaskfileVertex.uri = ["A", "C"] ∧
     edgeKeys (readerRead wOpt 5 st0 nodeA).1.graph = [("A", "C")] ∧
     (readerRead wOptReq 5 st0 nodeA).2.2 = some (.other "no such file")) := by
  refine ⟨?_, by decide⟩
  intro w recur st node tfVars inc0 inc1 entry dir e ht he hd hn
  unfold processOne
  simp only [ht, he, hd, hn]
  constructor
  · intro hopt
    rw [hopt]
    simp
  · intro hopt
    rw [hopt]
    simp

/-- C5 witness: the optional and non-optional branch outcomes at the
concrete unresolvable include. -/
theorem claim_C5_witness :
    processOne wOpt (fun s _ => (s, .ok ())) st0 nodeA [] (mkInclude "m" "M" true)
      = (st0, .ok ()) ∧
    processOne wOptReq (fun s _ => (s, .ok ())) st0 nodeA [] (mkInclude "m" "M" false)
      = (st0, .error (.other "no such file")) :=
  ⟨(claim_C5.1 wOpt (fun s _ => (s, .ok ())) st0 nodeA [] (mkInclude "m" "M" true)
      (mkInclude "m" "M" true) "M" "" "no such file" rfl rfl rfl rfl).1 rfl,
   (claim_C5.1 wOptReq (fun s _ => (s, .ok ())) st0 nodeA [] (mkInclude "m" "M" false)
      (mkInclude "m" "M" false) "M" "" "no such file" rfl rfl rfl rfl).2 rfl⟩

/-- C6: edge aggregation.  The edge-aggregation invariant — at most one
edge per ordered vertex pair, and every edge's weight equal to its
payload length — is preserved by every `include` run; a first include
between a pair creates the edge with a one-element payload and weight 1
and a repeat include appends to the payload and sets the weight to the
new payload length, so the concrete double include of B from A ends with
exactly one edge A→B of payload length 2 and weight 2. -/
theorem claim_C6 :
    (∀ (w : World) (fuel : Nat) (st : ReaderState) (node : Node),
        EdgesInv st.graph → EdgesInv ((doInclude w fuel st node).1.graph)) ∧
    (∀ (st : ReaderState) (a b : String) (inc : Include) (g : TaskfileGraph),
        findEdge st.graph a b = none →
        addEdgeG st.graph a b [inc] 1 = .ok g →
        addOrUpdateEdge st a b inc = ({ st with graph := g }, .ok ())) ∧
    (∀ (st : ReaderState) (a b : String) (inc : Include) (e : GraphEdge) (g : TaskfileGraph),
        findEdge st.graph a b = some e →
        updateEdgeG st.graph a b (e.data ++ [inc]) (e.data ++ [inc]).length = .ok g →
        addOrUpdateEdge st a b inc = ({ st with graph := g }, .ok ())) ∧
    ((readerRead wTwice 5 st0 nodeA).2.2 = none ∧
     edgeKeys (readerRead wTwice 5 st0 nodeA).1.graph = [("A", "B")] ∧
     (readerRead wTwice 5 st0 nodeA).1.graph.edges.map (fun e => e.data.length) = [2] ∧
     (readerRead wTwice 5 st0 nodeA).1.graph.edges.map GraphEdge.weight = [2]) := by
  refine ⟨doInclude_edgesInv, ?_, ?_, by decide⟩
  · intro st a b inc g hfe hadd
    unfold addOrUpdateEdge
    simp only [hfe, hadd]
  · intro st a b inc e g hfe hupd
    unfold addOrUpdateEdge
    simp only [hfe, hupd]

/-- C6 witness: the preserved invariant on the concrete double-include
run, and the two insertion shapes at concrete edges. -/
theorem claim_C6_witness :
    EdgesInv ((doInclude wTwice 5 st0 nodeA).1.graph) ∧
    addOrUpdateEdge stAB "A" "B" (mkInclude "x" "B" false) =
      ({ stAB with graph := { stAB.graph with
          edges := stAB.graph.edges ++ [⟨"A", "B", [mkInclude "x" "B" false], 1⟩] } },
        .ok ()) ∧
    addOrUpdateEdge stC1 "B" "A" (mkInclude "y" "A" false) =
      ({ stC1 with graph := { stC1.graph with
          edges := [⟨"B", "A", [mkInclude "y" "A" false], 1⟩] } },
        .ok ()) := by
  refine ⟨claim_C6.1 wTwice 5 st0 nodeA (by decide), ?_, ?_⟩
  · exact claim_C6.2.1 stAB "A" "B" (mkInclude "x" "B" false) _ (by decide) (by decide)
  · exact claim_C6.2.2.1 stC1 "B" "A" (mkInclude "y" "A" false) ⟨"B", "A", [], 0⟩ _
      (by decide) (by decide)

/-! ### Monotonicity of the graph state -/

/-- The vertex identities in `S` and edge endpoint pairs in `T` are all
present in the graph. -/
def GraphGE (S : List String) (T : List (String × String)) (g : TaskfileGraph) : Prop :=
  (∀ u ∈ S, u ∈ g.vertices.map TaskfileVertex.uri) ∧ (∀ k ∈ T, k ∈ edgeKeys g)

/-- `UpdateEdge` leaves the endpoint pairs unchanged. -/
theorem edgeKeys_update_eq (g : TaskfileGraph) (a b : String) (d : List Include) (wt : Nat) :
    edgeKeys { g with edges := g.edges.map fun e =>
      if e.source == a && e.target == b then { e with data := d, weight := wt } else e } =
    edgeKeys g := by
  unfold edgeKeys
  rw [List.map_map]
  refine List.map_congr_left ?_
  intro e' _
  simp only [Function.comp_apply]
  cases hc : (e'.source == a && e'.target == b) <;> simp

/-- Attaching a Taskfile to a vertex leaves the vertex identities
unchanged. -/
theorem setVertexTaskfile_uris (g : TaskfileGraph) (uri : String) (tf : Taskfile) :
    (setVertexTaskfile g uri tf).vertices.map TaskfileVertex.uri =
      g.vertices.map TaskfileVertex.uri := by
  unfold setVertexTaskfile
  rw [List.map_map]
  refine List.map_congr_left ?_
  intro v _
  simp only [Function.comp_apply]
  cases hc : (v.uri == uri) <;> simp

/-- The edge insertion/merge never removes a vertex or an edge pair. -/
theorem graphGE_addOrUpdateEdge (S : List String) (T : List (String × String))
    (st : ReaderState) (a b : String) (inc : Include)
    (h : GraphGE S T st.graph) : GraphGE S T ((addOrUpdateEdge st a b inc).1.graph) := by
  unfold addOrUpdateEdge
  split
  · split
    · next g hok =>
      unfold addEdgeG at hok
      split at hok
      · exact absurd hok (by simp)
      · split at hok
        · exact absurd hok (by simp)
        · split at hok
          · exact absurd hok (by simp)
          · injection hok with h'
            subst h'
            refine ⟨h.1, fun k hk => ?_⟩
            show k ∈ edgeKeys { st.graph with edges := st.graph.edges ++ _ }
            unfold edgeKeys
            rw [List.map_append]
            exact List.mem_append_left _ (h.2 k hk)
    · exact h
    · exact h
  · split
    · next g hok =>
      unfold updateEdgeG at hok
      split at hok
      · injection hok with h'
        subst h'
        exact ⟨h.1, fun k hk => (edgeKeys_update_eq st.graph a b _ _) ▸ h.2 k hk⟩
      · exact absurd hok (by simp)
    · exact h
    · exact h

/-- Whatever `include` does, the vertices and edge pairs present at the
start are still present at the end: no partial graph is discarded. -/
theorem doInclude_monotone (w : World) (fuel : Nat) (st : ReaderState) (node : Node) :
    GraphGE (st.graph.vertices.map TaskfileVertex.uri) (edgeKeys st.graph)
      ((doInclude w fuel st node).1.graph) :=
  doInclude_preserves (GraphGE _ _) w
    (fun g v hp => ⟨fun u hu => by
        show u ∈ (g.vertices ++ [v]).map TaskfileVertex.uri
        rw [List.map_append]
        exact List.mem_append_left _ (hp.1 u hu),
      hp.2⟩)
    (fun g uri tf hp => ⟨fun u hu => (setVertexTaskfile_uris g uri tf) ▸ hp.1 u hu, hp.2⟩)
    (graphGE_addOrUpdateEdge _ _) fuel st node ⟨fun _ hu => hu, fun _ hk => hk⟩

/-- The final reader state of `Read` is the final state of `include`. -/
theorem readerRead_state (w : World) (fuel : Nat) (st : ReaderState) (node : Node) :
    (readerRead w fuel st node).1 = (doInclude w fuel st node).1 := by
  unfold readerRead
  cases h : doInclude w fuel st node with
  | mk st' r => cases r <;> rfl

/-- C8 counterexample: a run in which a child read fails.  `Read` returns
the error and a nil graph — the caller is handed no graph to inspect —
even though the reader's internal state still holds the two vertices
built before the failure.  This refutes the claim that the caller can
still inspect the partially built graph through `Read`. -/
theorem claim_C8_counterexample :
    (readerRead wFail 5 st0 nodeA).2.2 = some (.other "boom") ∧
    (readerRead wFail 5 st0 nodeA).2.1 = none ∧
    (readerRead wFail 5 st0 nodeA).1.graph.vertices.map TaskfileVertex.uri = ["A", "B"] := by
  decide

/-- C8 (amended): when `Read` fails, the partially built graph is not
discarded — the reader state retains every vertex identity and edge pair
present before (and, by monotonicity, all those built during the run) —
but `Read` itself returns a nil graph together with the error, so the
partial graph is not observable through `Read`'s return value (the
reader's graph field is unexported). -/
theorem claim_C8 (w : World) (fuel : Nat) (st : ReaderState) (node : Node) :
    (∀ e, (readerRead w fuel st node).2.2 = some e →
      (readerRead w fuel st node).2.1 = none) ∧
    (∀ u ∈ st.graph.vertices.map TaskfileVertex.uri,
      u ∈ (readerRead w fuel st node).1.graph.vertices.map TaskfileVertex.uri) ∧
    (∀ k ∈ edgeKeys st.graph, k ∈ edgeKeys (readerRead w fuel st node).1.graph) := by
  refine ⟨?_, ?_, ?_⟩
  · intro e he
    unfold readerRead at he ⊢
    cases h : doInclude w fuel st node with
    | mk st' r =>
      rw [h] at he
      cases r with
      | error e' => rfl
      | ok u => simp at he
  · intro u hu
    rw [readerRead_state]
    exact (doInclude_monotone w fuel st node).1 u hu
  · intro k hk
    rw [readerRead_state]
    exact (doInclude_monotone w fuel st node).2 k hk

/-- C8 witness: the amended statement at the concrete failing run. -/
theorem claim_C8_witness :
    "A" ∈ stC1.graph.vertices.map TaskfileVertex.uri ∧
    "A" ∈ (readerRead wFail 5 stC1 nodeA).1.graph.vertices.map TaskfileVertex.uri := by
  refine ⟨by decide, ?_⟩
  exact (claim_C8 wFail 5 stC1 nodeA).2.1 "A" (by decide)

/-! ### Post-parse stamping -/

/-- Stamping after normalization: every originally absent/null task value
has become an empty record stamped with the document's provenance, and
every present task is stamped exactly when its provenance was empty. -/
theorem stampTasks_normalize (loc : String) (raw : List (String × Option TaskRec)) :
    stampTasks loc (normalizeTasks raw) =
      raw.map fun nt => (nt.1, some (stampTask loc (nt.2.getD ⟨""⟩))) := by
  unfold stampTasks normalizeTasks
  rw [List.map_map]
  refine List.map_congr_left ?_
  intro nt _
  cases nt with
  | mk n t => cases t <;> rfl

/-- C9: post-parse stamping.  For a successfully loaded and parsed
document with a schema version, `readNode` returns the document with its
provenance set to the location it was loaded from, and with every task of
the (normalized) tasks mapping present and stamped: a task whose
provenance was empty — including every task normalized from an
absent/null value — carries the document's provenance, while a task that
already carried one is unchanged. -/
theorem claim_C9 (w : World) (st : ReaderState) (node : Node) (b : String)
    (tf : Taskfile) (v : String) (raw : List (String × Option TaskRec))
    (hload : (loadNodeContent w.offline w.download node (readEnv w st node)).result = .ok b)
    (hparse : w.parse b = .ok tf) (hver : tf.version = some v)
    (hnorm : tf.tasks = normalizeTasks raw) :
    (readNode w st node).2 = .ok { tf with
        location := node.location,
        tasks := raw.map fun nt => (nt.1, some (stampTask node.location (nt.2.getD ⟨""⟩))) } ∧
    (∀ t : TaskRec, t.locationTaskfile ≠ "" → stampTask node.location t = t) ∧
    (∀ t : TaskRec, t.locationTaskfile = "" → stampTask node.location t = ⟨node.location⟩) := by
  refine ⟨?_, ?_, ?_⟩
  · simp only [readNode, hload, hparse, hver, Option.isNone_some, Bool.false_eq_true,
      if_false]
    rw [hnorm, stampTasks_normalize]
  · intro t h
    unfold stampTask
    rw [if_neg h]
  · intro t h
    unfold stampTask
    rw [if_pos h]

/-- A world whose root document parses to three tasks: one absent/null
(normalized at decode), one stamped from elsewhere, one unstamped. -/
def wStamp : World :=
  localWorld okNode okRead fun b =>
    if b = "A" then .ok ⟨some "3", "", [],
      normalizeTasks [("t1", none), ("t2", some ⟨"other"⟩), ("t3", some ⟨""⟩)], []⟩
    else .error (.otherErr "missing")

/-- C9 witness: the stamped document at a concrete read. -/
theorem claim_C9_witness :
    (readNode wStamp st0 nodeA).2 = .ok {
      version := some "3",
      location := "A",
      vars := [],
      tasks := [("t1", some ⟨"A"⟩), ("t2", some ⟨"other"⟩), ("t3", some ⟨"A"⟩)],
      includes := [] } ∧
    stampTask "A" ⟨"other"⟩ = ⟨"other"⟩ := by
  have h := claim_C9 wStamp st0 nodeA "A"
    ⟨some "3", "", [], normalizeTasks [("t1", none), ("t2", some ⟨"other"⟩), ("t3", some ⟨""⟩)], []⟩
    "3" [("t1", none), ("t2", some ⟨"other"⟩), ("t3", some ⟨""⟩)] rfl rfl rfl rfl
  refine ⟨?_, h.2.1 ⟨"other"⟩ (by decide)⟩
  rw [h.1]
  rfl
